import Mathlib

/-!
Verification development for the ReGenNexus UAP core.

The Python source is shallowly embedded: dictionaries become association
lists over a JSON value type, `json.dumps` / `json.loads` become an
executable serializer and parser over `List Char`, and the cryptographic
primitives (ECDH-P384, HKDF, AES-256-GCM, ECDSA-P384, SHA-384, base64)
are modelled symbolically: each primitive is an explicit injective
constructor on character lists, with decryption/verification defined as
the computable partial inverse.  Randomness (nonces, uuids) and the clock
are passed as explicit parameters.
-/

namespace ReGenNexus

/-- JSON values, the model of Python data handled by `json.dumps` /
`json.loads` (numbers restricted to integers, which covers every value the
core constructs).  Objects are insertion-ordered association lists, the
model of Python 3.7+ dicts. -/
inductive JValue where
  | null : JValue
  | bool (b : Bool) : JValue
  | int (n : Int) : JValue
  | str (s : String) : JValue
  | arr (xs : List JValue) : JValue
  | obj (kvs : List (String × JValue)) : JValue

/-- Association-list lookup, the model of Python `dict[k]` /
`dict.get(k)` for string-keyed dicts (first binding wins, matching a dict
in which a key occurs once). -/
def alookup {β : Type} : List (String × β) → String → Option β
  | [], _ => none
  | (k, v) :: rest, key => if k = key then some v else alookup rest key

/-- Model of Python `d.get(key, default)` on a dict value. -/
def jGetD (v : JValue) (key : String) (dflt : JValue) : JValue :=
  match v with
  | .obj kvs => (alookup kvs key).getD dflt
  | _ => dflt

/-- Model of Python `d[key]` on a JSON value: `none` models the
`KeyError` / `AttributeError` raised when the key is missing or the value
is not a dict. -/
def jGetReq (v : JValue) (key : String) : Option JValue :=
  match v with
  | .obj kvs => alookup kvs key
  | _ => none

/-- Model of Python `key in d`. -/
def jHasKey (v : JValue) (key : String) : Bool :=
  match v with
  | .obj kvs => (alookup kvs key).isSome
  | _ => false

/-- Model of Python `del d[key]` (on a dict whose remaining insertion
order is preserved). -/
def jDelKey (v : JValue) (key : String) : JValue :=
  match v with
  | .obj kvs => .obj (kvs.filter fun kv => kv.1 ≠ key)
  | v => v

/-- Python truthiness of a JSON value (`if x:`). -/
def jTruthy : JValue → Bool
  | .null => false
  | .bool b => b
  | .int n => n ≠ 0
  | .str s => s ≠ ""
  | .arr xs => !xs.isEmpty
  | .obj kvs => !kvs.isEmpty

/-! ## Decimal printing of integers (model of Python `str` / `json.dumps`
on ints) -/

/-- The decimal digit characters. -/
def digitChar (n : Nat) : Char :=
  match n with
  | 0 => '0' | 1 => '1' | 2 => '2' | 3 => '3' | 4 => '4'
  | 5 => '5' | 6 => '6' | 7 => '7' | 8 => '8' | _ => '9'

/-- Value of a decimal digit character. -/
def digitVal (c : Char) : Nat :=
  match c with
  | '0' => 0 | '1' => 1 | '2' => 2 | '3' => 3 | '4' => 4
  | '5' => 5 | '6' => 6 | '7' => 7 | '8' => 8 | _ => 9

/-- Is this a decimal digit character? -/
def isDigitCh (c : Char) : Bool :=
  decide ('0' ≤ c ∧ c ≤ '9')

/-- Decimal digits of a natural number with a structural fuel (any fuel
exceeding the number suffices, since dividing by ten shrinks it). -/
def natToDigitsF : Nat → Nat → List Char
  | 0, _ => []
  | f + 1, n =>
    if n < 10 then [digitChar n]
    else natToDigitsF f (n / 10) ++ [digitChar (n % 10)]

theorem natToDigitsF_irrel : ∀ f f' n, n < f → n < f' →
    natToDigitsF f n = natToDigitsF f' n := by
  intro f
  induction f with
  | zero => omega
  | succ g ih =>
    intro f' n hf hf'
    cases f' with
    | zero => omega
    | succ g' =>
      simp only [natToDigitsF]
      by_cases h : n < 10
      · simp [h]
      · simp only [if_neg h]
        have hd : n / 10 < n := Nat.div_lt_self (by omega) (by omega)
        rw [ih g' (n / 10) (by omega) (by omega)]

/-- Decimal digits of a natural number, most significant first. -/
def natToDigits (n : Nat) : List Char :=
  natToDigitsF (n + 1) n

theorem natToDigits_eq (n : Nat) :
    natToDigits n =
      if n < 10 then [digitChar n]
      else natToDigits (n / 10) ++ [digitChar (n % 10)] := by
  have hstep : natToDigitsF (n + 1) n =
      if n < 10 then [digitChar n]
      else natToDigitsF n (n / 10) ++ [digitChar (n % 10)] := rfl
  by_cases h : n < 10
  · rw [natToDigits, hstep, if_pos h, if_pos h]
  · have hd : n / 10 < n := Nat.div_lt_self (by omega) (by omega)
    rw [natToDigits, hstep, if_neg h, if_neg h, natToDigits]
    rw [natToDigitsF_irrel n (n / 10 + 1) (n / 10) (by omega) (by omega)]

/-- Decimal rendering of an integer. -/
def dumpInt : Int → List Char
  | .ofNat m => natToDigits m
  | .negSucc m => '-' :: natToDigits (m + 1)

theorem digitVal_digitChar {n : Nat} (h : n < 10) : digitVal (digitChar n) = n := by
  interval_cases n <;> rfl

theorem isDigitCh_digitChar {n : Nat} (h : n < 10) : isDigitCh (digitChar n) = true := by
  interval_cases n <;> rfl

theorem natToDigits_ne_nil (n : Nat) : natToDigits n ≠ [] := by
  rw [natToDigits_eq]
  split <;> simp

theorem natToDigits_digits (n : Nat) : ∀ c ∈ natToDigits n, isDigitCh c = true := by
  induction n using Nat.strong_induction_on with
  | _ n ih =>
    rw [natToDigits_eq]
    split
    · next h =>
      intro c hc
      simp at hc
      subst hc
      exact isDigitCh_digitChar h
    · next h =>
      intro c hc
      rw [List.mem_append] at hc
      rcases hc with hc | hc
      · exact ih (n / 10) (Nat.div_lt_self (by omega) (by omega)) c hc
      · simp at hc
        subst hc
        exact isDigitCh_digitChar (Nat.mod_lt _ (by omega))

/-! ## JSON serialization (model of Python `json.dumps` with its default
settings: insertion-ordered keys, item separator a comma followed by a
space, key separator a colon followed by a space).  Strings are emitted
with `"` and `\` escaped; other characters are emitted verbatim (the
Python encoder additionally escapes control and non-ASCII characters,
which the certificates, tokens and envelopes of the core never contain). -/

/-- Escape one character of a JSON string. -/
def escChar (c : Char) : List Char :=
  if c = '"' ∨ c = '\\' then ['\\', c] else [c]

/-- Escape a JSON string body. -/
def escapeL : List Char → List Char
  | [] => []
  | c :: cs => escChar c ++ escapeL cs

/-- A serialized JSON string: quote, escaped body, quote. -/
def dumpStr (s : String) : List Char :=
  '"' :: (escapeL s.data ++ ['"'])

mutual

/-- `json.dumps` with Python's default separators. -/
def dumps : JValue → List Char
  | .null => ['n', 'u', 'l', 'l']
  | .bool b => if b then ['t', 'r', 'u', 'e'] else ['f', 'a', 'l', 's', 'e']
  | .int n => dumpInt n
  | .str s => dumpStr s
  | .arr xs => '[' :: (dumpsA xs ++ [']'])
  | .obj kvs => '\x7b' :: (dumpsO kvs ++ ['\x7d'])

/-- Array items joined by a comma and a space. -/
def dumpsA : List JValue → List Char
  | [] => []
  | [x] => dumps x
  | x :: y :: rest => dumps x ++ ',' :: ' ' :: dumpsA (y :: rest)

/-- Object entries (`"key": value`) joined by a comma and a space. -/
def dumpsO : List (String × JValue) → List Char
  | [] => []
  | [(k, v)] => dumpStr k ++ ':' :: ' ' :: dumps v
  | (k, v) :: e :: rest =>
      dumpStr k ++ ':' :: ' ' :: dumps v ++ ',' :: ' ' :: dumpsO (e :: rest)

end

/-! ## JSON parsing (model of Python `json.loads`).  A deterministic
recursive-descent parser over `List Char`; `none` models the `ValueError`
raised on malformed input.  The recursion is bounded by an explicit fuel,
instantiated with the input length. -/

/-- Consume an exact literal from the front of the input. -/
def dropLit : List Char → List Char → Option (List Char)
  | [], rest => some rest
  | _ :: _, [] => none
  | c :: cs, d :: ds => if c = d then dropLit cs ds else none

theorem dropLit_append (p rest : List Char) : dropLit p (p ++ rest) = some rest := by
  induction p with
  | nil => rfl
  | cons c cs ih => simp [dropLit, ih]

/-- Parse a JSON string body after the opening quote, undoing `escapeL`,
up to the closing quote. -/
def parseStrAux : List Char → Option (List Char × List Char)
  | [] => none
  | c :: rest =>
    if c = '"' then some ([], rest)
    else if c = '\\' then
      match rest with
      | [] => none
      | e :: rest' =>
        if e = '"' ∨ e = '\\' then
          (parseStrAux rest').map fun p => (e :: p.1, p.2)
        else none
    else (parseStrAux rest).map fun p => (c :: p.1, p.2)

theorem parseStrAux_escape (l rest : List Char) :
    parseStrAux (escapeL l ++ '"' :: rest) = some (l, rest) := by
  induction l with
  | nil =>
    rw [parseStrAux.eq_def]
    simp [escapeL]
  | cons c cs ih =>
    by_cases hc : c = '"' ∨ c = '\\'
    · have h1 : escChar c = ['\\', c] := by simp [escChar, hc]
      have hne : ('\\' : Char) ≠ '"' := by decide
      simp only [escapeL, h1, List.cons_append, List.append_assoc]
      rw [parseStrAux.eq_def]
      simp only [if_neg hne, if_pos rfl]
      simp [hc, ih]
    · push_neg at hc
      have h1 : escChar c = [c] := by simp [escChar, hc.1, hc.2]
      simp only [escapeL, h1, List.cons_append, List.append_assoc]
      rw [parseStrAux.eq_def]
      simp only [if_neg hc.1, if_neg hc.2]
      simp [ih]

/-- Split a maximal run of decimal digits off the front of the input. -/
def splitDigits : List Char → List Char × List Char
  | [] => ([], [])
  | c :: cs =>
    if isDigitCh c then
      let p := splitDigits cs
      (c :: p.1, p.2)
    else ([], c :: cs)

/-- The first character, if any, is not a digit. -/
def headNotDigit (l : List Char) : Prop :=
  match l with
  | [] => True
  | c :: _ => isDigitCh c = false

theorem splitDigits_append {ds rest : List Char}
    (hds : ∀ c ∈ ds, isDigitCh c = true) (hrest : headNotDigit rest) :
    splitDigits (ds ++ rest) = (ds, rest) := by
  induction ds with
  | nil =>
    simp only [List.nil_append]
    cases rest with
    | nil => rfl
    | cons c cs => simp [splitDigits, headNotDigit] at hrest ⊢; simp [hrest]
  | cons c cs ih =>
    have hc := hds c (by simp)
    have hcs : ∀ x ∈ cs, isDigitCh x = true := fun x hx => hds x (by simp [hx])
    simp [splitDigits, hc, ih hcs]

/-- Accumulating decimal parse of a digit run. -/
def parseNatAcc (acc : Nat) (ds : List Char) : Nat :=
  ds.foldl (fun a c => 10 * a + digitVal c) acc

theorem parseNatAcc_natToDigits (n : Nat) :
    ∀ acc, parseNatAcc acc (natToDigits n) = acc * 10 ^ (natToDigits n).length + n := by
  induction n using Nat.strong_induction_on with
  | _ n ih =>
    intro acc
    rw [natToDigits_eq]
    split
    · next h =>
      simp [parseNatAcc, digitVal_digitChar h]
      ring
    · next h =>
      have hdivlt : n / 10 < n := Nat.div_lt_self (by omega) (by omega)
      have hmod : n % 10 < 10 := Nat.mod_lt _ (by omega)
      simp only [parseNatAcc, List.foldl_append, List.foldl_cons, List.foldl_nil,
        List.length_append, List.length_singleton]
      have := ih (n / 10) hdivlt acc
      simp only [parseNatAcc] at this
      rw [this, digitVal_digitChar hmod]
      rw [pow_succ]
      have : 10 * (n / 10) + n % 10 = n := Nat.div_add_mod n 10
      ring_nf
      omega

/-- Parse a (possibly negative) decimal integer off the front of the
input. -/
def parseIntTok (l : List Char) : Option (Int × List Char) :=
  if l.head? = some '-' then
    match splitDigits l.tail with
    | ([], _) => none
    | (ds, r) => some (-(parseNatAcc 0 ds : Int), r)
  else
    match splitDigits l with
    | ([], _) => none
    | (ds, r) => some ((parseNatAcc 0 ds : Int), r)

theorem parseNatAcc_zero (n : Nat) : (parseNatAcc 0 (natToDigits n) : Nat) = n := by
  rw [parseNatAcc_natToDigits]
  simp

theorem parseIntTok_dumpInt (n : Int) (rest : List Char) (hrest : headNotDigit rest) :
    parseIntTok (dumpInt n ++ rest) = some (n, rest) := by
  cases n with
  | ofNat m =>
    have hsplit := splitDigits_append (natToDigits_digits m) hrest
    obtain ⟨c, cs, hcs⟩ : ∃ c cs, natToDigits m = c :: cs := by
      cases h : natToDigits m with
      | nil => exact absurd h (natToDigits_ne_nil m)
      | cons c cs => exact ⟨c, cs, rfl⟩
    have hcd : isDigitCh c = true := natToDigits_digits m c (by rw [hcs]; simp)
    have hcne : c ≠ '-' := by
      intro he
      rw [he] at hcd
      simp [isDigitCh] at hcd
    have hd : dumpInt (Int.ofNat m) = natToDigits m := rfl
    rw [hd, hcs]
    rw [hcs] at hsplit
    simp only [List.cons_append] at hsplit
    simp only [parseIntTok, List.cons_append, List.head?_cons]
    rw [if_neg (by simp [hcne])]
    rw [hsplit]
    have hz := parseNatAcc_zero m
    rw [hcs] at hz
    simp [hz]
  | negSucc m =>
    have hsplit := splitDigits_append (natToDigits_digits (m + 1)) hrest
    obtain ⟨c, cs, hcs⟩ : ∃ c cs, natToDigits (m + 1) = c :: cs := by
      cases h : natToDigits (m + 1) with
      | nil => exact absurd h (natToDigits_ne_nil (m + 1))
      | cons c cs => exact ⟨c, cs, rfl⟩
    have hd : dumpInt (Int.negSucc m) = '-' :: natToDigits (m + 1) := rfl
    rw [hd, hcs]
    rw [hcs] at hsplit
    simp only [List.cons_append] at hsplit ⊢
    simp only [parseIntTok, List.head?_cons, List.tail_cons]
    rw [if_pos trivial, hsplit]
    have hz := parseNatAcc_zero (m + 1)
    rw [hcs] at hz
    simp [hz]
    rw [Int.negSucc_eq]
    ring

/-- Drop a run of spaces (the parser's tolerance for the single space
`dumps` emits after `,` and `:`). -/
def dropSpaces (l : List Char) : List Char :=
  l.dropWhile fun c => c = ' '

mutual

/-- Parse one JSON value off the front of the input. -/
def parseVal : Nat → List Char → Option (JValue × List Char)
  | 0, _ => none
  | _ + 1, [] => none
  | f + 1, c :: rest =>
    if isDigitCh c ∨ c = '-' then
      (parseIntTok (c :: rest)).map fun p => (JValue.int p.1, p.2)
    else if c = '"' then
      (parseStrAux rest).map fun p => (JValue.str ⟨p.1⟩, p.2)
    else if c = '[' then
      if rest.head? = some ']' then some (JValue.arr [], rest.tail)
      else (parseElems f rest).map fun p => (JValue.arr p.1, p.2)
    else if c = '\x7b' then
      if rest.head? = some '\x7d' then some (JValue.obj [], rest.tail)
      else (parseMembers f rest).map fun p => (JValue.obj p.1, p.2)
    else if c = 'n' then
      (dropLit ['u', 'l', 'l'] rest).map fun r => (JValue.null, r)
    else if c = 't' then
      (dropLit ['r', 'u', 'e'] rest).map fun r => (JValue.bool true, r)
    else if c = 'f' then
      (dropLit ['a', 'l', 's', 'e'] rest).map fun r => (JValue.bool false, r)
    else none

/-- Parse the items of a non-empty array, consuming the closing `]`. -/
def parseElems : Nat → List Char → Option (List JValue × List Char)
  | 0, _ => none
  | f + 1, input =>
    (parseVal f input).bind fun p =>
      match p.2 with
      | ',' :: r2 => (parseElems f (dropSpaces r2)).map fun q => (p.1 :: q.1, q.2)
      | ']' :: r2 => some ([p.1], r2)
      | _ => none

/-- Parse the entries of a non-empty object, consuming the closing
brace. -/
def parseMembers : Nat → List Char → Option (List (String × JValue) × List Char)
  | 0, _ => none
  | f + 1, input =>
    match input with
    | '"' :: r0 =>
      (parseStrAux r0).bind fun kp =>
        match kp.2 with
        | ':' :: r2 =>
          (parseVal f (dropSpaces r2)).bind fun vp =>
            match vp.2 with
            | ',' :: r4 =>
                (parseMembers f (dropSpaces r4)).map fun q =>
                  ((⟨kp.1⟩, vp.1) :: q.1, q.2)
            | '\x7d' :: r4 => some ([(⟨kp.1⟩, vp.1)], r4)
            | _ => none
        | _ => none
    | _ => none

end

/-- `json.loads`: parse a complete JSON document, rejecting trailing
data. -/
def loads (l : List Char) : Option JValue :=
  match parseVal (l.length + 1) l with
  | some (v, []) => some v
  | _ => none

/-! ## Parser correctness: `loads` is a left inverse of `dumps` -/

theorem str_mk_data (s : String) : String.mk s.data = s := by
  cases s
  rfl

theorem digit_ne_special {c : Char} (h : isDigitCh c = true) :
    c ≠ ']' ∧ c ≠ '\x7d' ∧ c ≠ ' ' := by
  simp only [isDigitCh, decide_eq_true_eq] at h
  refine ⟨?_, ?_, ?_⟩ <;> rintro rfl <;> revert h <;> decide

theorem dumpInt_head (n : Int) :
    ∃ c t, dumpInt n = c :: t ∧ (isDigitCh c ∨ c = '-') := by
  cases n with
  | ofNat m =>
    obtain ⟨c, cs, hcs⟩ : ∃ c cs, natToDigits m = c :: cs := by
      cases h : natToDigits m with
      | nil => exact absurd h (natToDigits_ne_nil m)
      | cons c cs => exact ⟨c, cs, rfl⟩
    exact ⟨c, cs, hcs, Or.inl (natToDigits_digits m c (by rw [hcs]; simp))⟩
  | negSucc m => exact ⟨'-', natToDigits (m + 1), rfl, Or.inr rfl⟩

theorem dumps_cons (v : JValue) :
    ∃ c t, dumps v = c :: t ∧ c ≠ ']' ∧ c ≠ '\x7d' ∧ c ≠ ' ' := by
  cases v with
  | int n =>
    obtain ⟨c, t, ht, hd⟩ := dumpInt_head n
    rcases hd with hd | hd
    · exact ⟨c, t, ht, digit_ne_special hd⟩
    · subst hd
      refine ⟨'-', t, ht, ?_, ?_, ?_⟩ <;> decide
  | null => refine ⟨'n', _, rfl, ?_, ?_, ?_⟩ <;> decide
  | bool b =>
    cases b
    · refine ⟨'f', _, rfl, ?_, ?_, ?_⟩ <;> decide
    · refine ⟨'t', _, rfl, ?_, ?_, ?_⟩ <;> decide
  | str s => refine ⟨'"', _, rfl, ?_, ?_, ?_⟩ <;> decide
  | arr xs => refine ⟨'[', _, rfl, ?_, ?_, ?_⟩ <;> decide
  | obj kvs => refine ⟨'\x7b', _, rfl, ?_, ?_, ?_⟩ <;> decide

theorem dumps_ne_nil (v : JValue) : dumps v ≠ [] := by
  obtain ⟨c, t, ht, -⟩ := dumps_cons v
  simp [ht]

/-- `dumpsA` of a non-empty list starts with the first character of the
first item's serialization. -/
theorem dumpsA_cons_eq (x : JValue) (xs : List JValue) :
    ∃ z, dumpsA (x :: xs) = dumps x ++ z := by
  cases xs with
  | nil => exact ⟨[], by simp [dumpsA]⟩
  | cons y t => exact ⟨',' :: ' ' :: dumpsA (y :: t), by simp [dumpsA]⟩

theorem dropSpaces_dumps (v : JValue) (z : List Char) :
    dropSpaces (dumps v ++ z) = dumps v ++ z := by
  obtain ⟨c, t, ht, -, -, hs⟩ := dumps_cons v
  rw [ht]
  simp [dropSpaces, List.dropWhile_cons, hs]

theorem dumpsO_cons_quote (kv : String × JValue) (t : List (String × JValue)) :
    ∃ z, dumpsO (kv :: t) = '"' :: z := by
  obtain ⟨k, v⟩ := kv
  cases t with
  | nil =>
    exact ⟨escapeL k.data ++ '"' :: ':' :: ' ' :: dumps v, by simp [dumpsO, dumpStr]⟩
  | cons e t' =>
    exact ⟨escapeL k.data ++ '"' :: ':' :: ' ' :: (dumps v ++ ',' :: ' ' :: dumpsO (e :: t')),
      by simp [dumpsO, dumpStr]⟩

theorem parse_dumps (fuel : Nat) :
    (∀ v rest, (dumps v).length ≤ fuel → headNotDigit rest →
        parseVal fuel (dumps v ++ rest) = some (v, rest)) ∧
    (∀ xs rest, xs ≠ [] → (dumpsA xs).length + 1 ≤ fuel →
        parseElems fuel (dumpsA xs ++ ']' :: rest) = some (xs, rest)) ∧
    (∀ kvs rest, kvs ≠ [] → (dumpsO kvs).length + 1 ≤ fuel →
        parseMembers fuel (dumpsO kvs ++ '\x7d' :: rest) = some (kvs, rest)) := by
  induction fuel with
  | zero =>
    refine ⟨fun v rest hlen _ => ?_, fun xs rest _ hlen => ?_, fun kvs rest _ hlen => ?_⟩
    · have := dumps_ne_nil v
      cases h : dumps v with
      | nil => exact absurd h this
      | cons c t => rw [h] at hlen; simp at hlen
    · omega
    · omega
  | succ f ih =>
    obtain ⟨ihV, ihE, ihM⟩ := ih
    refine ⟨?_, ?_, ?_⟩
    · -- parseVal on a serialized value
      intro v rest hlen hrest
      cases v with
      | null => simp [dumps, parseVal, dropLit, isDigitCh]
      | bool b => cases b <;> simp [dumps, parseVal, dropLit, isDigitCh]
      | int n =>
        obtain ⟨c, t, ht, hd⟩ := dumpInt_head n
        have hdi : dumps (JValue.int n) = dumpInt n := rfl
        rw [hdi, ht]
        simp only [List.cons_append]
        simp only [parseVal]
        rw [if_pos hd]
        have hback : (c :: (t ++ rest)) = dumpInt n ++ rest := by rw [ht]; simp
        rw [hback, parseIntTok_dumpInt n rest hrest]
        rfl
      | str s =>
        have hds : dumps (JValue.str s) = '"' :: (escapeL s.data ++ ['"']) := rfl
        rw [hds]
        simp only [List.cons_append, List.append_assoc, List.singleton_append]
        simp [parseVal, isDigitCh]
        rw [parseStrAux_escape]
        simp [str_mk_data]
      | arr xs =>
        cases xs with
        | nil =>
          have hda : dumps (JValue.arr []) = ['[', ']'] := rfl
          rw [hda]
          simp [parseVal, isDigitCh]
        | cons x xs' =>
          have hda : dumps (JValue.arr (x :: xs')) =
              '[' :: (dumpsA (x :: xs') ++ [']']) := rfl
          rw [hda]
          simp only [List.cons_append, List.append_assoc, List.singleton_append,
            List.nil_append]
          simp only [parseVal]
          rw [if_pos trivial]
          obtain ⟨z, hz⟩ := dumpsA_cons_eq x xs'
          obtain ⟨c, t, ht, hc1, -, -⟩ := dumps_cons x
          have hhead : (dumpsA (x :: xs') ++ ']' :: rest).head? ≠ some ']' := by
            rw [hz, ht]
            simp [hc1]
          rw [if_neg hhead]
          have hfuel : (dumpsA (x :: xs')).length + 1 ≤ f := by
            rw [hda] at hlen
            simp at hlen
            omega
          rw [ihE (x :: xs') rest (by simp) hfuel]
          rfl
      | obj kvs =>
        cases kvs with
        | nil =>
          have hdo : dumps (JValue.obj []) = ['\x7b', '\x7d'] := rfl
          rw [hdo]
          simp [parseVal, isDigitCh]
        | cons kv kvs' =>
          have hdo : dumps (JValue.obj (kv :: kvs')) =
              '\x7b' :: (dumpsO (kv :: kvs') ++ ['\x7d']) := rfl
          rw [hdo]
          simp only [List.cons_append, List.append_assoc, List.singleton_append,
            List.nil_append]
          simp only [parseVal]
          rw [if_pos trivial]
          obtain ⟨z, hz⟩ := dumpsO_cons_quote kv kvs'
          have hhead : (dumpsO (kv :: kvs') ++ '\x7d' :: rest).head? ≠ some '\x7d' := by
            rw [hz]
            simp
          rw [if_neg hhead]
          have hfuel : (dumpsO (kv :: kvs')).length + 1 ≤ f := by
            rw [hdo] at hlen
            simp at hlen
            omega
          rw [ihM (kv :: kvs') rest (by simp) hfuel]
          rfl
    · -- parseElems on serialized items followed by the closing bracket
      intro xs rest hne hlen
      cases xs with
      | nil => exact absurd rfl hne
      | cons x t =>
        cases t with
        | nil =>
          have hda : dumpsA [x] = dumps x := rfl
          rw [hda]
          simp only [parseElems]
          have hfx : (dumps x).length ≤ f := by
            rw [hda] at hlen
            omega
          rw [ihV x (']' :: rest) hfx (by simp [headNotDigit]; decide)]
          rfl
        | cons y t' =>
          have hda : dumpsA (x :: y :: t') =
              dumps x ++ ',' :: ' ' :: dumpsA (y :: t') := rfl
          rw [hda]
          simp only [List.cons_append, List.append_assoc]
          simp only [parseElems]
          have hfx : (dumps x).length ≤ f := by
            rw [hda] at hlen
            simp at hlen
            omega
          rw [ihV x (',' :: ' ' :: (dumpsA (y :: t') ++ ']' :: rest)) hfx
            (by simp [headNotDigit]; decide)]
          simp only [Option.some_bind]
          have hds : dropSpaces (' ' :: (dumpsA (y :: t') ++ ']' :: rest)) =
              dumpsA (y :: t') ++ ']' :: rest := by
            obtain ⟨z, hz⟩ := dumpsA_cons_eq y t'
            rw [hz]
            simp only [dropSpaces, List.dropWhile_cons, if_pos rfl, List.append_assoc]
            rw [← dropSpaces]
            exact dropSpaces_dumps y (z ++ ']' :: rest)
          simp only [hds]
          have hfy : (dumpsA (y :: t')).length + 1 ≤ f := by
            rw [hda] at hlen
            simp at hlen
            omega
          rw [ihE (y :: t') rest (by simp) hfy]
          rfl
    · -- parseMembers on serialized entries followed by the closing brace
      intro kvs rest hne hlen
      cases kvs with
      | nil => exact absurd rfl hne
      | cons kv t =>
        obtain ⟨k, v⟩ := kv
        cases t with
        | nil =>
          have hdo : dumpsO [(k, v)] = dumpStr k ++ ':' :: ' ' :: dumps v := rfl
          rw [hdo]
          simp only [dumpStr, List.cons_append, List.append_assoc, List.singleton_append,
            List.nil_append]
          simp only [parseMembers]
          rw [parseStrAux_escape]
          simp only [Option.some_bind]
          have hds : dropSpaces (' ' :: (dumps v ++ '\x7d' :: rest)) =
              dumps v ++ '\x7d' :: rest := by
            simp only [dropSpaces, List.dropWhile_cons, if_pos rfl]
            rw [← dropSpaces]
            exact dropSpaces_dumps v ('\x7d' :: rest)
          rw [hds]
          have hfv : (dumps v).length ≤ f := by
            rw [hdo] at hlen
            simp [dumpStr] at hlen
            omega
          rw [ihV v ('\x7d' :: rest) hfv (by simp [headNotDigit]; decide)]
          simp [str_mk_data]
        | cons e t' =>
          have hdo : dumpsO ((k, v) :: e :: t') =
              dumpStr k ++ ':' :: ' ' :: dumps v ++ ',' :: ' ' :: dumpsO (e :: t') := rfl
          rw [hdo]
          simp only [dumpStr, List.cons_append, List.append_assoc, List.singleton_append,
            List.nil_append]
          simp only [parseMembers]
          rw [parseStrAux_escape]
          simp only [Option.some_bind]
          have hds : dropSpaces
              (' ' :: (dumps v ++ ',' :: ' ' :: (dumpsO (e :: t') ++ '\x7d' :: rest))) =
              dumps v ++ ',' :: ' ' :: (dumpsO (e :: t') ++ '\x7d' :: rest) := by
            simp only [dropSpaces, List.dropWhile_cons, if_pos rfl]
            rw [← dropSpaces]
            exact dropSpaces_dumps v _
          simp only [hds]
          have hfv : (dumps v).length ≤ f := by
            rw [hdo] at hlen
            simp [dumpStr] at hlen
            omega
          rw [ihV v (',' :: ' ' :: (dumpsO (e :: t') ++ '\x7d' :: rest)) hfv
            (by simp [headNotDigit]; decide)]
          simp only [Option.some_bind]
          have hkd : ∃ z, dumpsO (e :: t') = '"' :: z := dumpsO_cons_quote e t'
          have hds2 : dropSpaces (' ' :: (dumpsO (e :: t') ++ '\x7d' :: rest)) =
              dumpsO (e :: t') ++ '\x7d' :: rest := by
            obtain ⟨z, hz⟩ := hkd
            rw [hz]
            simp [dropSpaces, List.dropWhile_cons]
          simp only [hds2]
          have hfm : (dumpsO (e :: t')).length + 1 ≤ f := by
            rw [hdo] at hlen
            simp [dumpStr] at hlen
            omega
          rw [ihM (e :: t') rest (by simp) hfm]
          simp [str_mk_data]

theorem loads_dumps (v : JValue) : loads (dumps v) = some v := by
  have h := (parse_dumps ((dumps v).length + 1)).1 v [] (by omega) trivial
  rw [List.append_nil] at h
  rw [loads, h]

/-! ## Symbolic cryptographic primitives (`src/security/crypto.py`)

The mathematics of P-384 is replaced by a symbolic model: key pairs are
numbered, a public key is the number of its pair, and the ECDH exchange
`private_key.exchange(ec.ECDH(), public_key)` is the canonical bytes of
the unordered pair of key numbers — which makes the exchange commutative,
exactly the property of the real ECDH.  HKDF tags its input with the
`info` string; AES-256-GCM ciphertext is the key, nonce and plaintext
joined by separators, and decryption strips the key/nonce prefix (so it
succeeds exactly under the encryption key and nonce, the GCM guarantee).
Base64 transport encoding and its decoding are collapsed to the identity
(an inverse pair the code never inspects). -/

/-- `private.exchange(ECDH(), public)` for key pairs numbered `a`, `b`. -/
def ecdhExchange (a b : Nat) : List Char :=
  ("ECDH-P384:" ++ toString (min a b) ++ "," ++ toString (max a b)).data

theorem ecdhExchange_comm (a b : Nat) : ecdhExchange a b = ecdhExchange b a := by
  simp [ecdhExchange, Nat.min_comm, Nat.max_comm]

/-- HKDF-SHA384 with no salt and the given `info` tag (32-byte output in
the source). -/
def hkdfSha384 (secret : List Char) (info : String) : List Char :=
  ("HKDF-SHA384[" ++ info ++ "]:").data ++ secret

/-- AES-256-GCM sealing under `key` with the given 96-bit `nonce`. -/
def aesgcmEnc (key nonce pt : List Char) : List Char :=
  key ++ '|' :: (nonce ++ '|' :: pt)

/-- AES-256-GCM opening: succeeds exactly under the sealing key and
nonce. -/
def aesgcmDec (key nonce ct : List Char) : Option (List Char) :=
  dropLit (key ++ '|' :: (nonce ++ ['|'])) ct

theorem aesgcmDec_enc (key nonce pt : List Char) :
    aesgcmDec key nonce (aesgcmEnc key nonce pt) = some pt := by
  have h := dropLit_append (key ++ '|' :: (nonce ++ ['|'])) pt
  simp only [List.append_assoc, List.cons_append, List.singleton_append,
    List.nil_append] at h
  simp only [aesgcmDec, aesgcmEnc, List.append_assoc, List.cons_append,
    List.singleton_append, List.nil_append]
  exact h

/-- Base64 encoding, collapsed to the identity. -/
def b64e (l : List Char) : List Char := l

/-- Base64 decoding, the inverse of `b64e`. -/
def b64d (l : List Char) : List Char := l

/-- `CryptoManager`: in-memory key stores.  Key pairs are represented by
their number; `public_keys` holds the number of the pair a stored public
key belongs to. -/
structure CryptoManager where
  private_keys : List (String × Nat)
  public_keys : List (String × Nat)
  shared_keys : List ((String × String) × List Char)

/-- Pair-keyed association lookup (Python dict keyed by 2-tuples). -/
def plookup {β : Type} : List ((String × String) × β) → String × String → Option β
  | [], _ => none
  | (k, v) :: rest, key => if k = key then some v else plookup rest key

/-- The HKDF info tag used by `derive_shared_key`. -/
def ecdhInfo : String := "ReGenNexus-ECDH-Key"

/-- `CryptoManager.derive_shared_key`: return the cached key for
`(local_id, remote_id)` if present, else derive via ECDH + HKDF from the
local private key and the remote public key, cache and return it; `none`
(the logged error) when either key is missing. -/
def derive_shared_key (cm : CryptoManager) (local_id remote_id : String) :
    Option (List Char) × CryptoManager :=
  match plookup cm.shared_keys (local_id, remote_id) with
  | some k => (some k, cm)
  | none =>
    match alookup cm.private_keys local_id with
    | none => (none, cm)
    | some priv =>
      match alookup cm.public_keys remote_id with
      | none => (none, cm)
      | some pub =>
        let derived := hkdfSha384 (ecdhExchange priv pub) ecdhInfo
        (some derived,
          { cm with shared_keys := ((local_id, remote_id), derived) :: cm.shared_keys })

/-- `CryptoManager.encrypt`: AES-256-GCM with a fresh random nonce,
returning base64 `ciphertext` and `nonce` fields. -/
def crypto_encrypt (pt key nonce : List Char) : Option (List Char × List Char) :=
  some (b64e (aesgcmEnc key nonce pt), b64e nonce)

/-- `CryptoManager.decrypt`: base64-decode, then AES-256-GCM open. -/
def crypto_decrypt (ct_b64 nonce_b64 key : List Char) : Option (List Char) :=
  aesgcmDec key (b64d nonce_b64) (b64d ct_b64)

/-- `CryptoManager.encrypt_message`: derive the shared key for
`(sender_id, recipient_id)`, serialize the message, seal it, and emit the
envelope dict; on any failure (the `except` handler) return the original
message unchanged.  `nonce` stands for the 12 bytes of `os.urandom`. -/
def encrypt_message (cm : CryptoManager) (sender_id recipient_id : String)
    (message : JValue) (nonce : List Char) : JValue × CryptoManager :=
  let p := derive_shared_key cm sender_id recipient_id
  match p.1 with
  | none => (message, p.2)
  | some sk =>
    if sk.isEmpty then (message, p.2)
    else
      match crypto_encrypt (dumps message) sk nonce with
      | none => (message, p.2)
      | some (ct, nB) =>
        match message with
        | JValue.obj _ =>
          (JValue.obj [("sender", .str sender_id), ("recipient", .str recipient_id),
            ("encrypted", .bool true), ("ciphertext", .str ⟨ct⟩), ("nonce", .str ⟨nB⟩),
            ("id", jGetD message "id" (.str "")),
            ("timestamp", jGetD message "timestamp" (.int 0))], p.2)
        | _ => (message, p.2)

/-- `CryptoManager.decrypt_message`: pass through messages whose
`encrypted` field is falsy; otherwise derive the shared key for
`(recipient_id, sender)` and open the envelope, returning `none` (the
`except` handler) on any failure. -/
def decrypt_message (cm : CryptoManager) (recipient_id : String)
    (encrypted_message : JValue) : Option JValue × CryptoManager :=
  match encrypted_message with
  | JValue.obj _ =>
    if !(jTruthy (jGetD encrypted_message "encrypted" (.bool false))) then
      (some encrypted_message, cm)
    else
      let senderV := jGetD encrypted_message "sender" (.str "")
      if !(jTruthy senderV) then (none, cm)
      else
        match senderV with
        | JValue.str sender_id =>
          let p := derive_shared_key cm recipient_id sender_id
          match p.1 with
          | none => (none, p.2)
          | some sk =>
            if sk.isEmpty then (none, p.2)
            else
              match jGetD encrypted_message "ciphertext" (.str ""),
                  jGetD encrypted_message "nonce" (.str "") with
              | JValue.str ct, JValue.str nB =>
                match crypto_decrypt ct.data nB.data sk with
                | none => (none, p.2)
                | some pt =>
                  if pt.isEmpty then (none, p.2)
                  else
                    match loads pt with
                    | some m => (some m, p.2)
                    | none => (none, p.2)
              | _, _ => (none, p.2)
        | _ => (none, cm)
  | _ => (none, cm)

/-- Consistency of one cache slot: the entry for `(x, y)` is absent or is
the key HKDF would derive for pair numbers `kx`, `ky` (an invariant of
every reachable `CryptoManager` state, since only `derive_shared_key`
writes the cache). -/
def cacheConsistent (cm : CryptoManager) (x y : String) (kx ky : Nat) : Prop :=
  plookup cm.shared_keys (x, y) = none ∨
    plookup cm.shared_keys (x, y) = some (hkdfSha384 (ecdhExchange kx ky) ecdhInfo)

theorem derive_shared_key_val (cm : CryptoManager) (x y : String) (kx ky : Nat)
    (hp : alookup cm.private_keys x = some kx)
    (hq : alookup cm.public_keys y = some ky)
    (hc : cacheConsistent cm x y kx ky) :
    (derive_shared_key cm x y).1 = some (hkdfSha384 (ecdhExchange kx ky) ecdhInfo) := by
  rcases hc with hc | hc <;> simp [derive_shared_key, hc, hp, hq]

theorem derive_shared_key_state (cm : CryptoManager) (x y : String) :
    (derive_shared_key cm x y).2.private_keys = cm.private_keys ∧
    (derive_shared_key cm x y).2.public_keys = cm.public_keys ∧
    ∀ p, p ≠ (x, y) →
      plookup (derive_shared_key cm x y).2.shared_keys p = plookup cm.shared_keys p := by
  unfold derive_shared_key
  split
  · exact ⟨rfl, rfl, fun _ _ => rfl⟩
  · split
    · exact ⟨rfl, rfl, fun _ _ => rfl⟩
    · split
      · exact ⟨rfl, rfl, fun _ _ => rfl⟩
      · refine ⟨rfl, rfl, fun p hp => ?_⟩
        simp [plookup, hp]
        intro he
        exact absurd he.symm hp

theorem hkdf_ne_nil (secret : List Char) (info : String) :
    hkdfSha384 secret info ≠ [] := by
  simp only [hkdfSha384, String.data_append, ne_eq, List.append_eq_nil,
    List.append_assoc]
  intro h
  have h1 := h.1
  revert h1
  decide

theorem mk_data_eq (l : List Char) : (String.mk l).data = l := rfl

/-- C1 (amended): the encrypt/decrypt round trip, for a non-empty sender
id.  The hypotheses say the key stores hold the key pairs of `s` and `r`
(`public_keys` holding the public halves of the same pairs) and that the
shared-key cache is in a reachable state for the two ordered pairs. -/
theorem crypto_roundtrip_amended (cm : CryptoManager) (s r : String) (a b : Nat)
    (kvs : List (String × JValue)) (nonce : List Char)
    (hdist : s ≠ r) (hs : s ≠ "")
    (hpa : alookup cm.private_keys s = some a)
    (hqa : alookup cm.public_keys s = some a)
    (hpb : alookup cm.private_keys r = some b)
    (hqb : alookup cm.public_keys r = some b)
    (hc1 : cacheConsistent cm s r a b) (hc2 : cacheConsistent cm r s b a) :
    (decrypt_message (encrypt_message cm s r (.obj kvs) nonce).2 r
        (encrypt_message cm s r (.obj kvs) nonce).1).1 = some (.obj kvs) := by
  have hK := derive_shared_key_val cm s r a b hpa hqb hc1
  obtain ⟨hst1, hst2, hst3⟩ := derive_shared_key_state cm s r
  have hKne : (hkdfSha384 (ecdhExchange a b) ecdhInfo).isEmpty = false := by
    have := hkdf_ne_nil (ecdhExchange a b) ecdhInfo
    cases h : hkdfSha384 (ecdhExchange a b) ecdhInfo with
    | nil => exact absurd h this
    | cons c t => rfl
  have henc : encrypt_message cm s r (.obj kvs) nonce =
      (JValue.obj [("sender", .str s), ("recipient", .str r),
        ("encrypted", .bool true),
        ("ciphertext", .str ⟨aesgcmEnc (hkdfSha384 (ecdhExchange a b) ecdhInfo) nonce
          (dumps (.obj kvs))⟩),
        ("nonce", .str ⟨nonce⟩),
        ("id", jGetD (.obj kvs) "id" (.str "")),
        ("timestamp", jGetD (.obj kvs) "timestamp" (.int 0))],
        (derive_shared_key cm s r).2) := by
    simp [encrypt_message, hK, hKne, crypto_encrypt, b64e]
  rw [henc]
  have hpb1 : alookup ((derive_shared_key cm s r).2).private_keys r = some b := by
    rw [hst1]; exact hpb
  have hqa1 : alookup ((derive_shared_key cm s r).2).public_keys s = some a := by
    rw [hst2]; exact hqa
  have hne : ((r, s) : String × String) ≠ (s, r) := by
    intro h
    exact hdist (congrArg Prod.snd h)
  have hc2' : cacheConsistent ((derive_shared_key cm s r).2) r s b a := by
    unfold cacheConsistent at hc2 ⊢
    rw [hst3 (r, s) hne]
    exact hc2
  have hK2 := derive_shared_key_val ((derive_shared_key cm s r).2) r s b a hpb1 hqa1 hc2'
  rw [ecdhExchange_comm b a] at hK2
  have hptne : (dumps (JValue.obj kvs)).isEmpty = false := by
    have := dumps_ne_nil (JValue.obj kvs)
    cases h : dumps (JValue.obj kvs) with
    | nil => exact absurd h this
    | cons c t => rfl
  simp [decrypt_message, jGetD, alookup, jTruthy, hs, hK2, hKne, crypto_decrypt,
    b64d, mk_data_eq, aesgcmDec_enc, hptne, loads_dumps]

/-- C1 (witness): the amended round trip at a concrete state. -/
theorem crypto_roundtrip_witness :
    (decrypt_message
        (encrypt_message ⟨[("alice", 1), ("bob", 2)], [("alice", 1), ("bob", 2)], []⟩
          "alice" "bob" (.obj [("intent", .str "ping")]) ['n']).2 "bob"
        (encrypt_message ⟨[("alice", 1), ("bob", 2)], [("alice", 1), ("bob", 2)], []⟩
          "alice" "bob" (.obj [("intent", .str "ping")]) ['n']).1).1 =
      some (.obj [("intent", .str "ping")]) :=
  crypto_roundtrip_amended ⟨[("alice", 1), ("bob", 2)], [("alice", 1), ("bob", 2)], []⟩
    "alice" "bob" 1 2 [("intent", .str "ping")] ['n']
    (by decide) (by decide) rfl rfl rfl rfl (Or.inl rfl) (Or.inl rfl)

/-- C1 (counterexample): the claim as stated fails for the distinct pair
`("", "bob")` even though both key pairs are present in the key stores:
`encrypt_message` produces a well-formed envelope, but `decrypt_message`
treats its falsy (empty) `sender` field as an error and returns `None`
instead of the message. -/
theorem crypto_roundtrip_counterexample :
    ("" : String) ≠ "bob" ∧
    alookup (CryptoManager.mk [("", 1), ("bob", 2)] [("", 1), ("bob", 2)] []).private_keys
      "" = some 1 ∧
    alookup (CryptoManager.mk [("", 1), ("bob", 2)] [("", 1), ("bob", 2)] []).public_keys
      "" = some 1 ∧
    alookup (CryptoManager.mk [("", 1), ("bob", 2)] [("", 1), ("bob", 2)] []).private_keys
      "bob" = some 2 ∧
    alookup (CryptoManager.mk [("", 1), ("bob", 2)] [("", 1), ("bob", 2)] []).public_keys
      "bob" = some 2 ∧
    (decrypt_message
        (encrypt_message (CryptoManager.mk [("", 1), ("bob", 2)] [("", 1), ("bob", 2)] [])
          "" "bob" (.obj [("intent", .str "hello")]) ['n']).2 "bob"
        (encrypt_message (CryptoManager.mk [("", 1), ("bob", 2)] [("", 1), ("bob", 2)] [])
          "" "bob" (.obj [("intent", .str "hello")]) ['n']).1).1 = none :=
  ⟨by decide, rfl, rfl, rfl, rfl, rfl⟩

/-- C9: when the shared key cannot be derived — no cached key and the
sender's private key or the recipient's public key missing from the key
stores — `encrypt_message` returns the original message dictionary
unchanged (and does not touch the manager state). -/
theorem encrypt_failure_returns_plaintext (cm : CryptoManager) (s r : String)
    (m : JValue) (nonce : List Char)
    (hcache : plookup cm.shared_keys (s, r) = none)
    (hmiss : alookup cm.private_keys s = none ∨ alookup cm.public_keys r = none) :
    encrypt_message cm s r m nonce = (m, cm) := by
  rcases hmiss with h | h
  · simp [encrypt_message, derive_shared_key, hcache, h]
  · cases hp : alookup cm.private_keys s with
    | none => simp [encrypt_message, derive_shared_key, hcache, hp]
    | some a => simp [encrypt_message, derive_shared_key, hcache, hp, h]

/-- C9 (witness): the failure path at a concrete state. -/
theorem encrypt_failure_witness :
    encrypt_message ⟨[], [("bob", 2)], []⟩ "alice" "bob"
        (.obj [("intent", .str "hello")]) ['n'] =
      (.obj [("intent", .str "hello")], ⟨[], [("bob", 2)], []⟩) :=
  encrypt_failure_returns_plaintext ⟨[], [("bob", 2)], []⟩ "alice" "bob"
    (.obj [("intent", .str "hello")]) ['n'] rfl (Or.inl rfl)

/-! ## `UAP_Message` (`src/protocol/message.py`)

Timestamps are integers ordered as the Python floats are; `time.time()`
and `str(uuid.uuid4())` become the explicit parameters `nowT` /
`freshId`. -/

structure UAPMessage where
  sender : String
  recipient : String
  intent : String
  payload : JValue
  id : String
  timestamp : Int
  encrypted : Bool
  signature : Option String
  ttl : Option Int

/-- `UAP_Message.__init__`: note the Python truthiness of
`message_id or str(uuid.uuid4())` and `timestamp or time.time()` — an
empty id and a zero timestamp are replaced just like a missing one. -/
def mkMessage (sender recipient intent : String) (payload : JValue)
    (message_id : Option String) (timestamp : Option Int) (encrypted : Bool)
    (signature : Option String) (ttl : Option Int) (nowT : Int) (freshId : String) :
    UAPMessage where
  sender := sender
  recipient := recipient
  intent := intent
  payload := payload
  id := match message_id with
    | some s => if s = "" then freshId else s
    | none => freshId
  timestamp := match timestamp with
    | some t => if t = 0 then nowT else t
    | none => nowT
  encrypted := encrypted
  signature := signature
  ttl := ttl

/-- `UAP_Message.to_dict`: six unconditional fields, then `encrypted`
only when truthy, `signature` only when truthy, `ttl` whenever not
`None`. -/
def UAPMessage.to_dict (m : UAPMessage) : JValue :=
  .obj ([("id", .str m.id), ("sender", .str m.sender), ("recipient", .str m.recipient),
      ("intent", .str m.intent), ("payload", m.payload), ("timestamp", .int m.timestamp)]
    ++ (if m.encrypted then [("encrypted", .bool true)] else [])
    ++ (match m.signature with
        | some s => if s = "" then [] else [("signature", .str s)]
        | none => [])
    ++ (match m.ttl with | some t => [("ttl", .int t)] | none => []))

/-- `UAP_Message.from_dict`: `none` models the `ValueError` on a missing
`sender`/`recipient`/`intent` (and the model boundary for fields of a
type the embedding does not represent); otherwise the constructor is
called with the extracted fields. -/
def UAPMessage.from_dict (data : JValue) (nowT : Int) (freshId : String) :
    Option UAPMessage :=
  match data with
  | .obj kvs =>
    match alookup kvs "sender", alookup kvs "recipient", alookup kvs "intent" with
    | some (.str snd), some (.str rcp), some (.str it) =>
      some (mkMessage snd rcp it
        (jGetD data "payload" (.obj []))
        (match alookup kvs "id" with | some (.str s) => some s | _ => none)
        (match alookup kvs "timestamp" with | some (.int t) => some t | _ => none)
        (match alookup kvs "encrypted" with | some v => jTruthy v | none => false)
        (match alookup kvs "signature" with | some (.str s) => some s | _ => none)
        (match alookup kvs "ttl" with | some (.int t) => some t | _ => none)
        nowT freshId)
    | _, _, _ => none
  | _ => none

/-- `UAP_Message.is_expired`: false without a ttl, else
`time.time() > timestamp + ttl`. -/
def UAPMessage.is_expired (m : UAPMessage) (now : Int) : Bool :=
  match m.ttl with
  | none => false
  | some t => now > m.timestamp + t

/-- `UAP_Message.validate`: required fields non-empty and not expired. -/
def UAPMessage.validate (m : UAPMessage) (now : Int) : Bool :=
  if m.sender = "" ∨ m.recipient = "" ∨ m.intent = "" then false
  else if m.is_expired now then false
  else true

/-- `UAP_Message.is_broadcast`. -/
def UAPMessage.is_broadcast (m : UAPMessage) : Bool :=
  m.recipient = "*"

/-- C7: a message with a ttl is expired exactly when
`now > timestamp + ttl`, a message without a ttl is never expired, and an
expired message fails `validate` (so the router drops it). -/
theorem ttl_expiry_spec (m : UAPMessage) (now : Int) :
    (∀ t, m.ttl = some t → (m.is_expired now = true ↔ now > m.timestamp + t)) ∧
    (m.ttl = none → m.is_expired now = false) ∧
    (m.is_expired now = true → m.validate now = false) := by
  refine ⟨fun t ht => ?_, fun ht => ?_, fun he => ?_⟩
  · simp [UAPMessage.is_expired, ht]
  · simp [UAPMessage.is_expired, ht]
  · simp [UAPMessage.validate, he]

/-- C7 (witness): a concrete expired message is invalid. -/
theorem ttl_expiry_witness :
    (UAPMessage.mk "a" "b" "ping" (.obj []) "m1" 10 false none (some 5)).is_expired 16
        = true ∧
    (UAPMessage.mk "a" "b" "ping" (.obj []) "m1" 10 false none (some 5)).validate 16
        = false := by
  have h := ttl_expiry_spec (UAPMessage.mk "a" "b" "ping" (.obj []) "m1" 10 false none
    (some 5)) 16
  have he : (UAPMessage.mk "a" "b" "ping" (.obj []) "m1" 10 false none
      (some 5)).is_expired 16 = true := (h.1 5 rfl).mpr (by decide)
  exact ⟨he, h.2.2 he⟩

theorem alookup_append {β : Type} (l1 l2 : List (String × β)) (k : String) :
    alookup (l1 ++ l2) k =
      match alookup l1 k with
      | some v => some v
      | none => alookup l2 k := by
  induction l1 with
  | nil => simp [alookup]
  | cons kv t ih =>
    obtain ⟨k', v'⟩ := kv
    by_cases h : k' = k <;> simp [alookup, h, ih]

theorem from_to_dict (m : UAPMessage) (nowT2 : Int) (freshId2 : String)
    (hid : m.id ≠ "") (hts : m.timestamp ≠ 0)
    (hsig : match m.signature with | some s => s ≠ "" | none => True) :
    UAPMessage.from_dict m.to_dict nowT2 freshId2 = some m := by
  obtain ⟨snd, rcp, it, pl, mid, ts, enc, sig, ttl⟩ := m
  simp only at hid hts hsig
  cases enc <;> rcases sig with _ | s <;> rcases ttl with _ | t <;>
    simp_all [UAPMessage.to_dict, UAPMessage.from_dict, mkMessage, alookup_append,
      alookup, jGetD, jTruthy]

theorem mkMessage_id_ne (s r i : String) (pl : JValue) (mid : Option String)
    (ts : Option Int) (enc : Bool) (sig : Option String) (ttl : Option Int)
    (nowT : Int) (fid : String) (hf : fid ≠ "") :
    (mkMessage s r i pl mid ts enc sig ttl nowT fid).id ≠ "" := by
  rcases mid with _ | ms
  · simpa [mkMessage] using hf
  · by_cases h : ms = "" <;> simp [mkMessage, h, hf]

theorem mkMessage_ts_ne (s r i : String) (pl : JValue) (mid : Option String)
    (ts : Option Int) (enc : Bool) (sig : Option String) (ttl : Option Int)
    (nowT : Int) (fid : String) (hn : nowT ≠ 0) :
    (mkMessage s r i pl mid ts enc sig ttl nowT fid).timestamp ≠ 0 := by
  rcases ts with _ | tv
  · simpa [mkMessage] using hn
  · by_cases h : tv = 0 <;> simp [mkMessage, h, hn]

/-- C10: for every `UAP_Message` (every object the constructor can
produce — `time.time()` is never `0` and `str(uuid4())` is never empty)
whose sender, recipient and intent are non-empty and whose signature is
`None` or non-empty, `from_dict (to_dict m)` reconstructs `m` exactly, in
every field. -/
theorem message_dict_roundtrip (sender recipient intent : String) (payload : JValue)
    (mid : Option String) (ts : Option Int) (enc : Bool) (sig : Option String)
    (ttl : Option Int) (nowT : Int) (freshId : String) (nowT2 : Int) (freshId2 : String)
    (hs : sender ≠ "") (hr : recipient ≠ "") (hi : intent ≠ "")
    (hsig : match sig with | some s => s ≠ "" | none => True)
    (hnow : nowT ≠ 0) (hfresh : freshId ≠ "") :
    UAPMessage.from_dict
        (UAPMessage.to_dict
          (mkMessage sender recipient intent payload mid ts enc sig ttl nowT freshId))
        nowT2 freshId2 =
      some (mkMessage sender recipient intent payload mid ts enc sig ttl nowT freshId) :=
  from_to_dict _ nowT2 freshId2
    (mkMessage_id_ne _ _ _ _ _ _ _ _ _ _ _ hfresh)
    (mkMessage_ts_ne _ _ _ _ _ _ _ _ _ _ _ hnow)
    hsig

/-- C10 (witness): the round trip at a concrete message. -/
theorem message_dict_roundtrip_witness :
    UAPMessage.from_dict
        (UAPMessage.to_dict
          (mkMessage "alice" "bob" "query" (.obj [("k", .int 3)]) (some "m7") (some 100)
            true (some "sg") (some 60) 50 "u1"))
        999 "u2" =
      some (mkMessage "alice" "bob" "query" (.obj [("k", .int 3)]) (some "m7") (some 100)
        true (some "sg") (some 60) 50 "u1") :=
  message_dict_roundtrip "alice" "bob" "query" (.obj [("k", .int 3)]) (some "m7")
    (some 100) true (some "sg") (some 60) 50 "u1" 999 "u2"
    (by decide) (by decide) (by decide) (by decide) (by decide) (by decide)

/-! ## Protocol core (`src/protocol/protocol_core.py`) and registry
(`src/registry/registry.py`)

A handler is a function from message and context to an outcome: it may
raise (`throws`), return `None`, or return a response message. -/

structure PCMessage where
  id : String
  sender_id : String
  recipient_id : String
  content : JValue
  intent : String
  context_id : String
  metadata : List (String × JValue)
  timestamp : Int

inductive HandlerOutcome where
  | throws : HandlerOutcome
  | ret (r : Option PCMessage) : HandlerOutcome

/-- A registered message handler. -/
def Handler : Type := PCMessage → List (String × JValue) → HandlerOutcome

/-- `Entity`: id and the `_message_handlers` list, in registration
order. -/
structure PCEntity where
  id : String
  handlers : List Handler

/-- The handler loop of `Entity.process_message`: call each handler in
order; an exception is caught and logged (the loop continues); a truthy
result (a `Message` object is always truthy, `None` is falsy) is returned
at once; `None` after the loop. -/
def runHandlers : List Handler → PCMessage → List (String × JValue) → Option PCMessage
  | [], _, _ => none
  | h :: t, m, c =>
    match h m c with
    | .throws => runHandlers t m c
    | .ret none => runHandlers t m c
    | .ret (some r) => some r

/-- `Entity.process_message`. -/
def PCEntity.process_message (e : PCEntity) (m : PCMessage)
    (c : List (String × JValue)) : Option PCMessage :=
  runHandlers e.handlers m c

/-- `Registry`: the entity map. -/
structure Registry where
  entities : List (String × PCEntity)

/-- `Registry.route_message`: look the recipient id up in the entity map
(`None` when absent — an `Entity` object is always truthy) and hand the
message to its `process_message`. -/
def Registry.route_message (reg : Registry) (message : PCMessage)
    (context : List (String × JValue)) : Option PCMessage :=
  match alookup reg.entities message.recipient_id with
  | none => none
  | some recipient => recipient.process_message message context

/-- `ProtocolCore`: the entity map. -/
structure ProtocolCore where
  entities : List (String × PCEntity)

/-- `ProtocolCore.route_message`: `None` when the recipient id is not
registered, else dispatch with `context or {}`. -/
def ProtocolCore.route_message (pc : ProtocolCore) (message : PCMessage)
    (context : Option (List (String × JValue))) : Option PCMessage :=
  match alookup pc.entities message.recipient_id with
  | none => none
  | some recipient =>
    recipient.process_message message
      (match context with
       | some c => c
       | none => [])

/-- C8: `process_message` runs the handlers in registration order; the
first non-empty (non-`None`, non-raising) response wins and is returned;
raising handlers are skipped (never propagated); with no response the
result is `None`.  Stated as: the result is the head of the
registration-ordered list of successful responses. -/
theorem handler_chain_first_response (e : PCEntity) (m : PCMessage)
    (c : List (String × JValue)) :
    e.process_message m c =
      (e.handlers.filterMap fun h =>
        match h m c with
        | .ret (some r) => some r
        | _ => none).head? := by
  unfold PCEntity.process_message
  induction e.handlers with
  | nil => rfl
  | cons h t ih =>
    cases hout : h m c with
    | throws => simp [runHandlers, hout, ih]
    | ret r =>
      cases r with
      | none => simp [runHandlers, hout, ih]
      | some resp => simp [runHandlers, hout]

/-- C4 (code_bug): with `alice` and `bob` registered, routing a message
whose recipient is the broadcast sentinel `*` returns `None` without
invoking anyone's handlers — in both `Registry.route_message` and
`ProtocolCore.route_message` — although `bob`'s handler answers when the
same message is addressed to `bob` directly.  Neither router performs the
fan-out the specification requires. -/
theorem broadcast_not_implemented :
    Registry.route_message
        ⟨[("alice", ⟨"alice", []⟩),
          ("bob", ⟨"bob", [fun _ _ => .ret (some
            ⟨"m2", "bob", "alice", .str "pong", "response", "c1", [], 2⟩)]⟩)]⟩
        ⟨"m1", "alice", "*", .str "hi", "sensor.reading", "c1", [], 1⟩ [] = none ∧
    ProtocolCore.route_message
        ⟨[("alice", ⟨"alice", []⟩),
          ("bob", ⟨"bob", [fun _ _ => .ret (some
            ⟨"m2", "bob", "alice", .str "pong", "response", "c1", [], 2⟩)]⟩)]⟩
        ⟨"m1", "alice", "*", .str "hi", "sensor.reading", "c1", [], 1⟩ none = none ∧
    Registry.route_message
        ⟨[("alice", ⟨"alice", []⟩),
          ("bob", ⟨"bob", [fun _ _ => .ret (some
            ⟨"m2", "bob", "alice", .str "pong", "response", "c1", [], 2⟩)]⟩)]⟩
        ⟨"m1", "alice", "bob", .str "hi", "sensor.reading", "c1", [], 1⟩ [] =
      some ⟨"m2", "bob", "alice", .str "pong", "response", "c1", [], 2⟩ :=
  ⟨rfl, rfl, rfl⟩

/-! ## Policy engine (`src/security/policy.py`)

`_match_wildcard_permission` translates a pattern to the anchored regex
`^<pattern with . and : escaped and * → [^.]*>$`.  The generated regexes
are sequences of literal characters and the class-star `[^.]*`, so their
matching semantics is embedded directly: `star` consumes any run of
non-dot characters.  (For patterns containing other regex
metacharacters the Python translation is not literal; no pattern of the
core contains any.) -/

inductive RTok where
  | lit (c : Char) : RTok
  | star : RTok

/-- The regex translation: `*` becomes `[^.]*`, everything else is a
(possibly escaped) literal. -/
def translateWildcard (p : List Char) : List RTok :=
  p.map fun c => if c = '*' then .star else .lit c

/-- Anchored matching of the translated pattern, with a structural fuel:
every step shrinks the pattern or the input, so a fuel exceeding their
total length is never exhausted. -/
def rtokMatchF : Nat → List RTok → List Char → Bool
  | 0, _, _ => false
  | _ + 1, [], [] => true
  | _ + 1, [], _ :: _ => false
  | _ + 1, .lit _ :: _, [] => false
  | f + 1, .lit c :: ps, d :: ds => c = d && rtokMatchF f ps ds
  | f + 1, .star :: ps, s =>
    rtokMatchF f ps s ||
      (match s with
       | [] => false
       | d :: ds => d ≠ '.' && rtokMatchF f (.star :: ps) ds)

/-- Anchored matching of the translated pattern (`re.match` with `^...$`
anchors). -/
def rtokMatch (p : List RTok) (s : List Char) : Bool :=
  rtokMatchF (p.length + s.length + 1) p s

/-- `PolicyManager._match_wildcard_permission`. -/
def match_wildcard_permission (pattern permission : String) : Bool :=
  rtokMatch (translateWildcard pattern.data) permission.data

mutual

/-- Structural equality of JSON values (Python `==`; dict comparison in
the source only ever reaches strings and numbers, where list equality of
the entries coincides with it). -/
def jBeq : JValue → JValue → Bool
  | .null, .null => true
  | .bool a, .bool b => a == b
  | .int a, .int b => a == b
  | .str a, .str b => a == b
  | .arr a, .arr b => jBeqL a b
  | .obj a, .obj b => jBeqO a b
  | _, _ => false

def jBeqL : List JValue → List JValue → Bool
  | [], [] => true
  | a :: as', b :: bs => jBeq a b && jBeqL as' bs
  | _, _ => false

def jBeqO : List (String × JValue) → List (String × JValue) → Bool
  | [], [] => true
  | (ka, va) :: as', (kb, vb) :: bs => ka == kb && jBeq va vb && jBeqO as' bs
  | _, _ => false

end

/-- Is `pre` a prefix of `l` (Python `str.startswith`)? -/
def startsWithL : List Char → List Char → Bool
  | [], _ => true
  | _ :: _, [] => false
  | c :: cs, d :: ds => c = d && startsWithL cs ds

/-- Is `needle` a contiguous substring of `hay` (Python `in` on
strings)? -/
def isSubstr (needle : List Char) : List Char → Bool
  | [] => needle.isEmpty
  | h :: hs => startsWithL needle (h :: hs) || isSubstr needle hs

/-- `base_ip.rsplit(".", 1)[0]`: everything before the last dot, or the
whole string when it has no dot. -/
def beforeLastDot (l : List Char) : List Char :=
  if l.contains '.' then ((l.reverse.dropWhile fun c => c ≠ '.').tail).reverse
  else l

/-- `PolicyManager._ip_in_range`; `none` models the `ValueError` raised
by unpacking `ip_range.split("/")` when the range does not have exactly
one slash. -/
def ip_in_range (ip ip_range : String) : Option Bool :=
  if ip_range = ip then some true
  else if ip_range.data.contains '/' then
    match ip_range.data.splitOn '/' with
    | [base, _bits] => some (startsWithL (beforeLastDot base) ip.data)
    | _ => none
  else some false

/-- The evaluation context dict: `current_time`, `client_ip`,
`entity_attributes`. -/
structure PolicyCtx where
  current_time : Option Int
  client_ip : Option String
  entity_attributes : List (String × JValue)

inductive EntitiesSpec where
  | flat (l : List String) : EntitiesSpec
  | incexc (inc : Option (List String)) (exc : Option (List String)) : EntitiesSpec

inductive PCond where
  | time_range (start_t end_t : Option Int) : PCond
  | ip_range (allowed_ips : List String) : PCond
  | attribute (attr : String) (value : JValue) (op : String) : PCond
  | unknown : PCond

structure Policy where
  resources : Option (List String)
  actions : Option (List String)
  entities : Option EntitiesSpec
  conditions : Option (List PCond)

structure PolicyManager where
  policies : List (String × Policy)
  entity_roles : List (String × List String)
  role_permissions : List (String × List String)

/-- `PolicyManager._evaluate_condition`; `none` models an uncaught
exception (e.g. ordering two values Python cannot compare), which
`evaluate_policy` does not catch. -/
def evaluate_condition (c : PCond) (ctx : PolicyCtx) (now : Int) : Option Bool :=
  match c with
  | .time_range start_t end_t =>
    let ct : Int := match ctx.current_time with
      | some t => if t = 0 then now else t
      | none => now
    if (match start_t with | some s => s ≠ 0 && decide (ct < s) | none => false) then
      some false
    else if (match end_t with | some e => e ≠ 0 && decide (ct > e) | none => false) then
      some false
    else some true
  | .ip_range allowed_ips =>
    match ctx.client_ip with
    | none => some false
    | some ip =>
      if ip = "" then some false
      else
        let rec anyIp : List String → Option Bool
          | [] => some false
          | r :: t =>
            match ip_in_range ip r with
            | none => none
            | some true => some true
            | some false => anyIp t
        anyIp allowed_ips
  | .attribute attr value op =>
    let ev : JValue := (alookup ctx.entity_attributes attr).getD .null
    if op = "eq" then some (jBeq ev value)
    else if op = "ne" then some (!jBeq ev value)
    else if op = "gt" then
      match ev, value with
      | .int a, .int b => some (decide (a > b))
      | .str a, .str b => some (decide (a > b))
      | _, _ => none
    else if op = "lt" then
      match ev, value with
      | .int a, .int b => some (decide (a < b))
      | .str a, .str b => some (decide (a < b))
      | _, _ => none
    else if op = "in" then
      match value with
      | .arr xs => some (xs.any fun x => jBeq ev x)
      | .str vs =>
        match ev with
        | .str es => some (isSubstr es.data vs.data)
        | _ => none
      | _ => none
    else if op = "contains" then
      match ev with
      | .arr xs => some (xs.any fun x => jBeq value x)
      | .str es =>
        match value with
        | .str vs => some (isSubstr vs.data es.data)
        | _ => none
      | _ => none
    else some false
  | .unknown => some false

/-- The condition loop of `_evaluate_policy_rules`: every condition must
hold. -/
def evalConds : List PCond → PolicyCtx → Int → Option Bool
  | [], _, _ => some true
  | c :: t, ctx, now =>
    match evaluate_condition c ctx now with
    | none => none
    | some false => some false
    | some true => evalConds t ctx now

/-- `PolicyManager._evaluate_policy_rules`. -/
def evaluate_policy_rules (p : Policy) (entity_id resource action : String)
    (ctx : PolicyCtx) (now : Int) : Option Bool :=
  let resFail : Bool :=
    match p.resources with
    | some rs => !(rs.contains resource)
    | none => false
  let actFail : Bool :=
    match p.actions with
    | some l => !(l.contains action)
    | none => false
  let incFail : Bool :=
    match p.entities with
    | some (.incexc (some l) _) => !(l.contains entity_id)
    | _ => false
  let excFail : Bool :=
    match p.entities with
    | some (.incexc _ (some l)) => l.contains entity_id
    | _ => false
  let flatFail : Bool :=
    match p.entities with
    | some (.flat l) => !(l.contains entity_id)
    | _ => false
  if resFail then some false
  else if actFail then some false
  else if flatFail || incFail || excFail then some false
  else
    match p.conditions with
    | none => some true
    | some cs => evalConds cs ctx now

/-- `PolicyManager.get_entity_permissions`: the union of the permissions
of the entity's roles. -/
def get_entity_permissions (pm : PolicyManager) (entity_id : String) : List String :=
  match alookup pm.entity_roles entity_id with
  | none => []
  | some roles => roles.flatMap fun role => (alookup pm.role_permissions role).getD []

/-- `PolicyManager.check_permission`: exact match, then the wildcard
loop. -/
def check_permission (pm : PolicyManager) (entity_id permission : String) : Bool :=
  (get_entity_permissions pm entity_id).contains permission ||
    (get_entity_permissions pm entity_id).any fun q =>
      match_wildcard_permission q permission

/-- The policy loop of `evaluate_policy`. -/
def evalPolicyList : List (String × Policy) → String → String → String → PolicyCtx →
    Int → Option Bool
  | [], _, _, _, _, _ => some false
  | (_, p) :: t, e, r, a, ctx, now =>
    match evaluate_policy_rules p e r a ctx now with
    | none => none
    | some true => some true
    | some false => evalPolicyList t e r a ctx now

/-- `PolicyManager.evaluate_policy`: direct permission
`resource + ":" + action`, then the policy walk. -/
def evaluate_policy (pm : PolicyManager) (entity_id resource action : String)
    (ctx : PolicyCtx) (now : Int) : Option Bool :=
  if check_permission pm entity_id (resource ++ ":" ++ action) then some true
  else evalPolicyList pm.policies entity_id resource action ctx now

/-- C5: with no roles assigned and no policies defined,
`evaluate_policy` denies every request, whatever the role-permission
table, entity, resource, action and context. -/
theorem policy_default_deny (rp : List (String × List String))
    (entity_id resource action : String) (ctx : PolicyCtx) (now : Int) :
    evaluate_policy ⟨[], [], rp⟩ entity_id resource action ctx now = some false := rfl

/-- C6: if `q` is granted through one of the entity's roles and the
permission `p` matches `q` under the code's regex translation
(`.`/`:` escaped, `*` → `[^.]*`, anchored), then `check_permission` is
true. -/
theorem wildcard_permission_sound (pm : PolicyManager) (entity_id q p : String)
    (hq : q ∈ get_entity_permissions pm entity_id)
    (hm : rtokMatch (translateWildcard q.data) p.data = true) :
    check_permission pm entity_id p = true := by
  unfold check_permission
  have h : (get_entity_permissions pm entity_id).any
      (fun q' => match_wildcard_permission q' p) = true :=
    List.any_eq_true.mpr ⟨q, hq, by simpa [match_wildcard_permission] using hm⟩
  rw [h, Bool.or_true]

/-- C6 (witness): `sensor.temp:read` matches the granted pattern
`sensor.*:read`. -/
theorem wildcard_permission_witness :
    check_permission
      ⟨[], [("dev", ["sensorRole"])], [("sensorRole", ["sensor.*:read"])]⟩
      "dev" "sensor.temp:read" = true :=
  wildcard_permission_sound
    ⟨[], [("dev", ["sensorRole"])], [("sensorRole", ["sensor.*:read"])]⟩
    "dev" "sensor.*:read" "sensor.temp:read" (by decide) (by decide)

/-! ## Authentication (`src/security/auth.py`)

ECDSA-P384 with SHA-384 is modelled symbolically: ECC key pairs are
numbered, the public key PEM export is a tagged decimal, SHA-384 is the
identity on the hashed bytes (a collision-free hash), a DSS signature is
the signer's key number prepended to the hash, and verification under a
public key succeeds exactly on that signer's signature over those bytes.
`bytes.hex()` / `bytes.fromhex` and base64 are collapsed to inverse
pairs.  The PEM certificate armor and the `split`-based unwrapping in the
source are an exact inverse pair on everything the code produces, and
are modelled as such. -/

/-- SHA-384, modelled as the identity on the hashed byte sequence. -/
def sha384 (l : List Char) : List Char := l

/-- `ECC.public_key().export_key(format='PEM')` for key pair `k`. -/
def eccPubPem (k : Nat) : String :=
  ⟨("ECC-PUB-").data ++ natToDigits k⟩

/-- `ECC.import_key` on a public-key PEM. -/
def eccImportPub (s : String) : Option Nat :=
  match dropLit ("ECC-PUB-").data s.data with
  | none => none
  | some ds =>
    if ds.isEmpty then none
    else if ds.all isDigitCh then some (parseNatAcc 0 ds) else none

theorem eccImportPub_pem (k : Nat) : eccImportPub (eccPubPem k) = some k := by
  unfold eccImportPub eccPubPem
  rw [mk_data_eq, dropLit_append]
  have h1 : (natToDigits k).isEmpty = false := by
    cases h : natToDigits k with
    | nil => exact absurd h (natToDigits_ne_nil k)
    | cons c t => rfl
  have h2 : (natToDigits k).all isDigitCh = true :=
    List.all_eq_true.mpr (natToDigits_digits k)
  simp [h1, h2, parseNatAcc_zero]

/-- `DSS.new(key, 'fips-186-3').sign(h)`. -/
def dssSign (k : Nat) (h : List Char) : List Char :=
  ("SIG[").data ++ natToDigits k ++ ("]:").data ++ h

/-- `DSS.new(public_key, 'fips-186-3').verify(h, signature)`: true
exactly for the matching key pair's signature over the same hash. -/
def dssVerify (k : Nat) (h sig : List Char) : Bool :=
  sig = dssSign k h

/-- `bytes.hex()` (inverse pair with `hexDecode`). -/
def hexEncode (l : List Char) : String := ⟨l⟩

/-- `bytes.fromhex` (a failure coincides with a verification failure,
which ends in the same `(False, None)` / `False` result). -/
def hexDecode (s : String) : List Char := s.data

/-- The PEM armor of a certificate. -/
def pemWrap (body : List Char) : List Char :=
  ("-----BEGIN CERTIFICATE-----\n").data ++
    (b64e body ++ ("\n-----END CERTIFICATE-----").data)

/-- The `split("-----BEGIN CERTIFICATE-----\n")[1]
.split("\n-----END CERTIFICATE-----")[0]` unwrapping, as the partial
inverse of `pemWrap`; `none` models the `IndexError` on input without the
markers. -/
def pemUnwrap (l : List Char) : Option (List Char) :=
  match dropLit ("-----BEGIN CERTIFICATE-----\n").data l with
  | none => none
  | some rest =>
    match dropLit ("\n-----END CERTIFICATE-----").data.reverse rest.reverse with
    | none => none
    | some midRev => some (b64d midRev.reverse)

theorem pemUnwrap_wrap (body : List Char) : pemUnwrap (pemWrap body) = some body := by
  unfold pemUnwrap pemWrap
  rw [dropLit_append]
  simp only [List.reverse_append, dropLit_append, List.reverse_reverse, b64e, b64d]

/-- `AuthenticationManager` state. -/
structure AuthManager where
  revoked_tokens : List String
  revoked_certificates : List Int
  ca_cert : Option (List Char)
  ca_key : Option Nat

/-- `AuthenticationManager.revoke_token`. -/
def revoke_token (A : AuthManager) (token_id : String) : AuthManager :=
  { A with revoked_tokens := token_id :: A.revoked_tokens }

/-- `AuthenticationManager.revoke_certificate`. -/
def revoke_certificate (A : AuthManager) (serial_number : Int) : AuthManager :=
  { A with revoked_certificates := serial_number :: A.revoked_certificates }

/-- The entity certificate dict built by `issue_entity_certificate`, in
its insertion order. -/
def entityCertBody (entity_id : String) (entity_public_key : List Char)
    (issuer : JValue) (now : Int) : List (String × JValue) :=
  [("version", .int 1),
   ("serial_number", .int now),
   ("issuer", issuer),
   ("subject", .str ("entity:" ++ entity_id)),
   ("not_before", .int now),
   ("not_after", .int (now + 30 * 24 * 60 * 60)),
   ("public_key", .str ⟨b64e entity_public_key⟩),
   ("extensions", .obj
     [("basic_constraints", .obj [("ca", .bool false)]),
      ("key_usage", .arr [.str "digital_signature", .str "key_encipherment"]),
      ("entity_id", .str entity_id)])]

/-- `AuthenticationManager.issue_entity_certificate`: parse the CA cert,
build the entity cert dict, sign `json.dumps` of it (with the signature
fields absent, in insertion order, with the default separators), append
the signature fields and PEM-wrap the full dict.  `int(time.time())` is
the parameter `now`; the CA private key PEM import is collapsed to the
key number.  `none` models an uncaught exception. -/
def issue_entity_certificate (entity_id : String) (entity_public_key : List Char)
    (ca_cert_pem : List Char) (ca_key : Nat) (now : Int) : Option (List Char) :=
  match pemUnwrap ca_cert_pem with
  | none => none
  | some caBytes =>
    match loads caBytes with
    | none => none
    | some caCert =>
      match jGetReq caCert "subject" with
      | none => none
      | some subj =>
        let body := entityCertBody entity_id entity_public_key subj now
        let sig := dssSign ca_key (sha384 (dumps (.obj body)))
        some (pemWrap (dumps (.obj (body ++
          [("signature", .str (hexEncode sig)),
           ("signature_algorithm", .str "ecdsa-with-SHA384")]))))

/-- `AuthenticationManager.verify_entity_certificate`: parse both PEMs,
check revocation, the validity window and the issuer, then verify the CA
signature over `json.dumps` of the parsed cert with the `signature` and
`signature_algorithm` entries deleted (remaining insertion order
preserved).  Every failure (or exception) is `False`. -/
def verify_entity_certificate (A : AuthManager) (cert_pem ca_cert_pem : List Char)
    (now : Int) : Bool :=
  match pemUnwrap cert_pem with
  | none => false
  | some certBytes =>
    match loads certBytes with
    | none => false
    | some cert =>
      match pemUnwrap ca_cert_pem with
      | none => false
      | some caBytes =>
        match loads caBytes with
        | none => false
        | some caCert =>
          match jGetReq cert "serial_number" with
          | none => false
          | some sn =>
            if (match sn with
                | .int n => A.revoked_certificates.contains n
                | _ => false) then false
            else
              match jGetReq cert "not_before", jGetReq cert "not_after" with
              | some (.int nb), some (.int na) =>
                if now < nb || now > na then false
                else
                  match jGetReq cert "issuer", jGetReq caCert "subject" with
                  | some iss, some subj =>
                    if !(jBeq iss subj) then false
                    else
                      match jGetReq cert "signature" with
                      | some (.str sigHex) =>
                        match jGetReq cert "signature_algorithm" with
                        | none => false
                        | some _ =>
                          let certCopy :=
                            jDelKey (jDelKey cert "signature") "signature_algorithm"
                          match jGetReq caCert "public_key" with
                          | some (.str capub) =>
                            match eccImportPub capub with
                            | none => false
                            | some k =>
                              dssVerify k (sha384 (dumps certCopy)) (hexDecode sigHex)
                          | _ => false
                      | _ => false
                  | _, _ => false
              | _, _ => false

/-- `AuthenticationManager.generate_token`: the token dict in insertion
order, signed over `json.dumps` of the dict without the signature field
when a CA key is held, then base64-encoded.  `uuid4` and `time.time()`
are the parameters `token_id` / `now`. -/
def generate_token (entity_id : String) (expiration_hours : Int) (claims : JValue)
    (ca_key : Option Nat) (now : Int) (token_id : String) : List Char :=
  let td : List (String × JValue) :=
    [("token_id", .str token_id),
     ("entity_id", .str entity_id),
     ("exp", .int (now + expiration_hours * 3600)),
     ("iat", .int now),
     ("claims", claims)]
  let td2 :=
    match ca_key with
    | some k => td ++ [("signature", .str (hexEncode (dssSign k (sha384 (dumps (.obj td))))))]
    | none => td
  b64e (dumps (.obj td2))

/-- `token_data["token_id"] in self.revoked_tokens`: membership of the
id value in the revocation set of strings.  Set membership hashes its
operand even when the set is empty, so an unhashable id — a list or a
dict — raises `TypeError` (`none` here, turned into `(False, None)` by
the `except` handler); hashable non-string ids (numbers, booleans,
`None`) are simply not members of a set of strings. -/
def tokenIdRevoked (A : AuthManager) (tid : JValue) : Option Bool :=
  match tid with
  | .str s => some (A.revoked_tokens.contains s)
  | .arr _ => none
  | .obj _ => none
  | _ => some false

/-- The signature-verification chain of `validate_token` on the decoded
token dict: signature and configured CA cert present, CA cert parses,
its public key imports, and the DSS signature verifies over `json.dumps`
of the token dict without the `signature` entry.  Every failure mode of
the source (missing pieces, `fromhex` failure, `verifier.verify` raising
`ValueError`) ends in the same `(False, None)`, so they collapse into
`false` here. -/
def tokenSigCheck (A : AuthManager) (td : JValue) : Bool :=
  match jGetReq td "signature", A.ca_cert with
  | some (.str sigHex), some caPem =>
    match pemUnwrap caPem with
    | none => false
    | some caBytes =>
      match loads caBytes with
      | none => false
      | some caCert =>
        match jGetReq caCert "public_key" with
        | some (.str capub) =>
          match eccImportPub capub with
          | none => false
          | some k =>
            dssVerify k (sha384 (dumps (jDelKey td "signature"))) (hexDecode sigHex)
        | _ => false
  | _, _ => false

/-- `AuthenticationManager.validate_token`: decode, check revocation and
expiry, verify the signature when the token carries one and a CA
certificate is configured, then return `(True, entity_id)`.  Every
failure or exception is `(False, None)`. -/
def validate_token (A : AuthManager) (token : List Char) (now : Int) :
    Bool × Option JValue :=
  match loads (b64d token) with
  | none => (false, none)
  | some td =>
    match jGetReq td "token_id" with
    | none => (false, none)
    | some tid =>
      match tokenIdRevoked A tid with
      | none => (false, none)
      | some true => (false, none)
      | some false =>
        match jGetReq td "exp" with
        | none => (false, none)
        | some (.int e) =>
          if e < now then (false, none)
          else
            if jHasKey td "signature" then
              match A.ca_cert with
              | some _ =>
                if tokenSigCheck A td then
                  match jGetReq td "entity_id" with
                  | some ev => (true, some ev)
                  | none => (false, none)
                else (false, none)
              | none =>
                match jGetReq td "entity_id" with
                | some ev => (true, some ev)
                | none => (false, none)
            else
              match jGetReq td "entity_id" with
              | some ev => (true, some ev)
              | none => (false, none)
        | some _ => (false, none)

/-- The claim's reading of "its signature is valid under the CA public
key", as a predicate on the encoded token: the token decodes and carries
a signature that verifies under the configured CA certificate's key. -/
def tokenSigValidB (A : AuthManager) (token : List Char) : Bool :=
  match loads (b64d token) with
  | none => false
  | some td => tokenSigCheck A td

/-- C2 (counterexample): a CA certificate is configured and the token is
neither revoked nor expired, but carries no signature at all —
`validate_token` still returns `(True, entity_id)`, although the token
has no signature valid under the CA public key.  The claimed "if and
only if" fails. -/
theorem token_validate_counterexample :
    validate_token
        ⟨[], [],
          some (pemWrap (dumps (.obj [("subject", .str "ReGenNexus Core CA"),
            ("public_key", .str (eccPubPem 7))]))),
          some 7⟩
        (b64e (dumps (.obj [("token_id", .str "t1"), ("entity_id", .str "svc"),
          ("exp", .int 100)])))
        50 = (true, some (.str "svc")) ∧
    tokenSigValidB
        ⟨[], [],
          some (pemWrap (dumps (.obj [("subject", .str "ReGenNexus Core CA"),
            ("public_key", .str (eccPubPem 7))]))),
          some 7⟩
        (b64e (dumps (.obj [("token_id", .str "t1"), ("entity_id", .str "svc"),
          ("exp", .int 100)]))) = false :=
  ⟨rfl, rfl⟩

/-- C2 (amended): for a token encoding the dict `td`, `validate_token`
returns `(True, entity_id)` exactly when the token id is present and not
revoked, the expiry is present, an integer and not in the past, the
signature — when the token carries one and a CA certificate is
configured — verifies under the CA public key, and the entity id is
present; and a token whose id has been revoked through `revoke_token`
authenticates nothing even within its validity window. -/
theorem token_validate_iff_amended (A : AuthManager) (td : List (String × JValue))
    (now : Int) (ev : JValue) :
    (validate_token A (b64e (dumps (.obj td))) now = (true, some ev) ↔
      (∃ tid e,
        alookup td "token_id" = some tid ∧
        tokenIdRevoked A tid = some false ∧
        alookup td "exp" = some (.int e) ∧
        now ≤ e ∧
        ((alookup td "signature").isSome = true → A.ca_cert ≠ none →
          tokenSigCheck A (.obj td) = true) ∧
        alookup td "entity_id" = some ev)) ∧
    (∀ s, alookup td "token_id" = some (.str s) →
      (validate_token (revoke_token A s) (b64e (dumps (.obj td))) now).1 = false) := by
  have hload : loads (b64d (b64e (dumps (.obj td)))) = some (.obj td) := loads_dumps _
  constructor
  · constructor
    · intro h
      unfold validate_token at h
      rw [hload] at h
      simp only [jGetReq, jHasKey] at h
      cases h1 : alookup td "token_id" with
      | none =>
        simp only [h1] at h
        exact absurd h (by simp)
      | some tid =>
        simp only [h1] at h
        cases h2 : tokenIdRevoked A tid with
        | none =>
          simp only [h2] at h
          exact absurd h (by simp)
        | some b =>
          cases b with
          | true =>
            simp only [h2] at h
            exact absurd h (by simp)
          | false =>
            simp only [h2] at h
            cases h3 : alookup td "exp" with
          | none =>
            simp only [h3] at h
            exact absurd h (by simp)
          | some expv =>
            cases expv with
            | int e =>
              simp only [h3] at h
              by_cases h4 : e < now
              · rw [if_pos h4] at h
                simp at h
              · rw [if_neg h4] at h
                refine ⟨tid, e, rfl, h2, rfl, by omega, ?_⟩
                by_cases h5 : (alookup td "signature").isSome = true
                · rw [if_pos h5] at h
                  cases h6 : A.ca_cert with
                  | none =>
                    simp only [h6] at h
                    cases h8 : alookup td "entity_id" with
                    | none =>
                      simp only [h8] at h
                      exact absurd h (by simp)
                    | some ev' =>
                      simp only [h8] at h
                      have hevv : ev' = ev := by simpa using congrArg Prod.snd h
                      subst hevv
                      exact ⟨fun _ hcc => absurd rfl hcc, rfl⟩
                  | some caPem =>
                    simp only [h6] at h
                    by_cases h7 : tokenSigCheck A (.obj td) = true
                    · rw [if_pos h7] at h
                      cases h8 : alookup td "entity_id" with
                      | none =>
                        simp only [h8] at h
                        exact absurd h (by simp)
                      | some ev' =>
                        simp only [h8] at h
                        have hevv : ev' = ev := by simpa using congrArg Prod.snd h
                        subst hevv
                        exact ⟨fun _ _ => h7, rfl⟩
                    · rw [if_neg h7] at h
                      simp at h
                · rw [if_neg h5] at h
                  cases h8 : alookup td "entity_id" with
                  | none =>
                    simp only [h8] at h
                    exact absurd h (by simp)
                  | some ev' =>
                    simp only [h8] at h
                    have hevv : ev' = ev := by simpa using congrArg Prod.snd h
                    subst hevv
                    exact ⟨fun hh _ => absurd hh h5, rfl⟩
            | null =>
              simp only [h3] at h
              exact absurd h (by simp)
            | bool b =>
              simp only [h3] at h
              exact absurd h (by simp)
            | str s =>
              simp only [h3] at h
              exact absurd h (by simp)
            | arr xs =>
              simp only [h3] at h
              exact absurd h (by simp)
            | obj kvs =>
              simp only [h3] at h
              exact absurd h (by simp)
    · rintro ⟨tid, e, h1, h2, h3, h4, h5, h6⟩
      unfold validate_token
      rw [hload]
      simp only [jGetReq, jHasKey, h1, h2, h3]
      rw [if_neg (by omega)]
      by_cases h7 : (alookup td "signature").isSome = true
      · rw [if_pos h7]
        cases h8 : A.ca_cert with
        | none => simp only [h6]
        | some caPem =>
          rw [if_pos (h5 h7 (by simp [h8]))]
          simp only [h6]
      · rw [if_neg h7]
        simp only [h6]
  · intro s hs
    unfold validate_token
    rw [hload]
    simp only [jGetReq, hs]
    have hrev : tokenIdRevoked (revoke_token A s) (.str s) = some true := by
      simp [tokenIdRevoked, revoke_token]
    simp only [hrev]

/-- C2 (witness): the amended characterization applied at a concrete
signed token issued by `generate_token` for a configured CA, and the
revocation consequence at its token id. -/
theorem token_validate_witness :
    validate_token
        ⟨[], [],
          some (pemWrap (dumps (.obj [("subject", .str "CA"),
            ("public_key", .str (eccPubPem 7))]))), some 7⟩
        (b64e (dumps (.obj [("token_id", .str "t9"), ("entity_id", .str "svc"),
          ("exp", .int 100), ("iat", .int 10)])))
        50 = (true, some (.str "svc")) ∧
    (validate_token
        (revoke_token
          ⟨[], [],
            some (pemWrap (dumps (.obj [("subject", .str "CA"),
              ("public_key", .str (eccPubPem 7))]))), some 7⟩ "t9")
        (b64e (dumps (.obj [("token_id", .str "t9"), ("entity_id", .str "svc"),
          ("exp", .int 100), ("iat", .int 10)])))
        50).1 = false := by
  have h := token_validate_iff_amended
    ⟨[], [],
      some (pemWrap (dumps (.obj [("subject", .str "CA"),
        ("public_key", .str (eccPubPem 7))]))), some 7⟩
    [("token_id", .str "t9"), ("entity_id", .str "svc"),
      ("exp", .int 100), ("iat", .int 10)]
    50 (.str "svc")
  exact ⟨h.1.mpr ⟨.str "t9", 100, rfl, rfl, rfl, by decide,
    fun hh _ => absurd hh (by decide), rfl⟩, h.2 "t9" rfl⟩

/-! ## The specification's canonicalization (for C3)

Modelled from the spec: "the certificate JSON is serialized with sorted
keys and no insignificant whitespace" (sorted lexicographically at every
depth, compact separators).  This is the claim's serialization, to be
compared with the `json.dumps` call the source actually makes. -/

/-- Lexicographic order on character lists (the order of Python string
sorting for the ASCII keys involved). -/
def charListLe : List Char → List Char → Bool
  | [], _ => true
  | _ :: _, [] => false
  | a :: as', b :: bs => if a < b then true else if b < a then false else charListLe as' bs

/-- Insert an entry into a key-sorted list. -/
def insertKV (kv : String × JValue) : List (String × JValue) → List (String × JValue)
  | [] => [kv]
  | h :: t => if charListLe kv.1.data h.1.data then kv :: h :: t else h :: insertKV kv t

/-- Sort object entries by key. -/
def sortKeys : List (String × JValue) → List (String × JValue)
  | [] => []
  | h :: t => insertKV h (sortKeys t)

mutual

/-- Recursively sort every object's keys. -/
def canon : JValue → JValue
  | .null => .null
  | .bool b => .bool b
  | .int n => .int n
  | .str s => .str s
  | .arr xs => .arr (canonL xs)
  | .obj kvs => .obj (sortKeys (canonO kvs))

def canonL : List JValue → List JValue
  | [] => []
  | x :: t => canon x :: canonL t

def canonO : List (String × JValue) → List (String × JValue)
  | [] => []
  | (k, v) :: t => (k, canon v) :: canonO t

end

mutual

/-- Compact serialization: no whitespace after separators. -/
def dumpsC : JValue → List Char
  | .null => ['n', 'u', 'l', 'l']
  | .bool b => if b then ['t', 'r', 'u', 'e'] else ['f', 'a', 'l', 's', 'e']
  | .int n => dumpInt n
  | .str s => dumpStr s
  | .arr xs => '[' :: (dumpsCA xs ++ [']'])
  | .obj kvs => '\x7b' :: (dumpsCO kvs ++ ['\x7d'])

def dumpsCA : List JValue → List Char
  | [] => []
  | [x] => dumpsC x
  | x :: y :: rest => dumpsC x ++ ',' :: dumpsCA (y :: rest)

def dumpsCO : List (String × JValue) → List Char
  | [] => []
  | [(k, v)] => dumpStr k ++ ':' :: dumpsC v
  | (k, v) :: e :: rest => dumpStr k ++ ':' :: dumpsC v ++ ',' :: dumpsCO (e :: rest)

end

/-- The spec's canonical serialization: keys sorted lexicographically at
every depth, no insignificant whitespace. -/
def dumpsCanonical (v : JValue) : List Char :=
  dumpsC (canon v)

/-- C3 (counterexample): the byte sequence `issue_entity_certificate`
signs — `json.dumps` of the certificate dict in insertion order with
Python's default separators (a space after `,` and `:`) — differs from
the claim's canonical serialization (sorted keys, no whitespace), so the
signature is not computed over the canonical bytes; the third conjunct
pins the issued certificate: its embedded signature is the DSS signature
over the insertion-ordered, default-separator serialization. -/
theorem cert_canonicalization_counterexample :
    dumps (.obj (entityCertBody "alice" ['P', 'K'] (.str "ReGenNexus Core CA") 1000)) ≠
      dumpsCanonical
        (.obj (entityCertBody "alice" ['P', 'K'] (.str "ReGenNexus Core CA") 1000)) ∧
    dssSign 7 (sha384
        (dumps (.obj (entityCertBody "alice" ['P', 'K'] (.str "ReGenNexus Core CA") 1000)))) ≠
      dssSign 7 (sha384 (dumpsCanonical
        (.obj (entityCertBody "alice" ['P', 'K'] (.str "ReGenNexus Core CA") 1000)))) ∧
    issue_entity_certificate "alice" ['P', 'K']
        (pemWrap (dumps (.obj [("subject", .str "ReGenNexus Core CA"),
          ("public_key", .str (eccPubPem 7))])))
        7 1000 =
      some (pemWrap (dumps (.obj
        (entityCertBody "alice" ['P', 'K'] (.str "ReGenNexus Core CA") 1000 ++
          [("signature", .str (hexEncode (dssSign 7 (sha384 (dumps (.obj
            (entityCertBody "alice" ['P', 'K'] (.str "ReGenNexus Core CA") 1000))))))),
           ("signature_algorithm", .str "ecdsa-with-SHA384")])))) :=
  ⟨by decide, by decide, rfl⟩

/-- C3 (amended): the signature of an issued certificate is computed
over the UTF-8 bytes of the certificate JSON serialized by `json.dumps`
with its defaults — keys in insertion order (version, serial_number,
issuer, subject, not_before, not_after, public_key, extensions), a space
after each `,` and `:` — with the `signature` and `signature_algorithm`
fields absent; and `verify_entity_certificate` verifies the signature
over exactly that byte sequence, accepting the issued certificate. -/
theorem cert_sign_verify_amended
    (A : AuthManager) (entity_id : String) (pubkey : List Char)
    (caKvs : List (String × JValue)) (caKey : Nat) (caSubj : String)
    (issueT verifyT : Int)
    (hsubj : alookup caKvs "subject" = some (.str caSubj))
    (hpub : alookup caKvs "public_key" = some (.str (eccPubPem caKey)))
    (hrev : A.revoked_certificates.contains issueT = false)
    (hnb : issueT ≤ verifyT) (hna : verifyT ≤ issueT + 30 * 24 * 60 * 60) :
    issue_entity_certificate entity_id pubkey (pemWrap (dumps (.obj caKvs))) caKey issueT
      = some (pemWrap (dumps (.obj
          (entityCertBody entity_id pubkey (.str caSubj) issueT ++
            [("signature", .str (hexEncode (dssSign caKey (sha384 (dumps (.obj
              (entityCertBody entity_id pubkey (.str caSubj) issueT))))))),
             ("signature_algorithm", .str "ecdsa-with-SHA384")])))) ∧
    verify_entity_certificate A
      (pemWrap (dumps (.obj
        (entityCertBody entity_id pubkey (.str caSubj) issueT ++
          [("signature", .str (hexEncode (dssSign caKey (sha384 (dumps (.obj
            (entityCertBody entity_id pubkey (.str caSubj) issueT))))))),
           ("signature_algorithm", .str "ecdsa-with-SHA384")]))))
      (pemWrap (dumps (.obj caKvs))) verifyT = true := by
  constructor
  · unfold issue_entity_certificate
    simp only [pemUnwrap_wrap, loads_dumps, jGetReq, hsubj]
  · unfold verify_entity_certificate
    simp only [pemUnwrap_wrap, loads_dumps]
    simp only [jGetReq, hsubj, hpub, alookup_append, entityCertBody, alookup]
    simp only [jDelKey, List.filter]
    have h1 : ¬(verifyT < issueT) := by omega
    have h2 : ¬(verifyT > issueT + 30 * 24 * 60 * 60) := by omega
    simp [hrev, h1, h2, jBeq, eccImportPub_pem, dssVerify, hexEncode, hexDecode,
      mk_data_eq]
    exact ⟨by simpa using hrev, by omega⟩

/-- C3 (witness): issue-then-verify at concrete inputs. -/
theorem cert_sign_verify_witness :
    issue_entity_certificate "alice" ['P']
        (pemWrap (dumps (.obj [("subject", .str "CA"),
          ("public_key", .str (eccPubPem 7))]))) 7 100
      = some (pemWrap (dumps (.obj
          (entityCertBody "alice" ['P'] (.str "CA") 100 ++
            [("signature", .str (hexEncode (dssSign 7 (sha384 (dumps (.obj
              (entityCertBody "alice" ['P'] (.str "CA") 100))))))),
             ("signature_algorithm", .str "ecdsa-with-SHA384")])))) ∧
    verify_entity_certificate ⟨[], [], none, none⟩
      (pemWrap (dumps (.obj
        (entityCertBody "alice" ['P'] (.str "CA") 100 ++
          [("signature", .str (hexEncode (dssSign 7 (sha384 (dumps (.obj
            (entityCertBody "alice" ['P'] (.str "CA") 100))))))),
           ("signature_algorithm", .str "ecdsa-with-SHA384")]))))
      (pemWrap (dumps (.obj [("subject", .str "CA"),
        ("public_key", .str (eccPubPem 7))]))) 200 = true :=
  cert_sign_verify_amended ⟨[], [], none, none⟩ "alice" ['P']
    [("subject", .str "CA"), ("public_key", .str (eccPubPem 7))] 7 "CA" 100 200
    rfl rfl rfl (by decide) (by decide)

end ReGenNexus
